import Mathlib

/-!
Verification of the PhantomBuster LinkedIn search relay service.

The development shallowly embeds the final (staggered fire-and-poll) variant
of the service: JSON values, the result normalizer/merger, the batch tracker,
the launch retry loop, and the two HTTP handlers (`POST /search-profiles`,
`GET /results/:batchId`).  Remote I/O (PhantomBuster launch and output calls)
is abstracted by oracle functions supplying each call's response; wall-clock
time is abstracted by explicit elapsed-milliseconds bookkeeping, with a fuel
parameter bounding the recursion of the polling loop (the theorems show the
fuel derived from the time budget is never exhausted).
-/

/-- JSON values.  JavaScript `undefined` is represented by `Option.none`
at use sites (absent object fields, absent function results); `Json.null`
is JavaScript `null`.  Numbers are modelled as integers: no claim in this
development depends on fractional or floating-point behaviour. -/
inductive Json where
  | null : Json
  | bool (b : Bool) : Json
  | num (n : Int) : Json
  | str (s : String) : Json
  | arr (elems : List Json) : Json
  | obj (fields : List (String × Json)) : Json
deriving Repr

mutual

/-- Structural equality of JSON values.  This models JavaScript `Set`
membership (SameValueZero) for the primitive keys produced by the service;
object-valued keys would compare by reference in JavaScript, but every key
the service builds from string URL fields or `JSON.stringify` is a string. -/
def jeq : Json → Json → Bool
  | .null, .null => true
  | .bool a, .bool b => a == b
  | .num a, .num b => a == b
  | .str a, .str b => a == b
  | .arr a, .arr b => jeqList a b
  | .obj a, .obj b => jeqFields a b
  | _, _ => false

def jeqList : List Json → List Json → Bool
  | [], [] => true
  | a :: as, b :: bs => jeq a b && jeqList as bs
  | _, _ => false

def jeqFields : List (String × Json) → List (String × Json) → Bool
  | [], [] => true
  | (k, v) :: as, (k2, v2) :: bs => k == k2 && jeq v v2 && jeqFields as bs
  | _, _ => false

end

/-- JavaScript truthiness of a JSON value (`null`, `false`, `0` and the
empty string are falsy; arrays and objects are always truthy). -/
def truthy : Json → Bool
  | .null => false
  | .bool b => b
  | .num n => n != 0
  | .str s => s != ""
  | .arr _ => true
  | .obj _ => true

/-- First binding of a key in an object's field list (field lists built by
the service are key-unique). -/
def lookupField : List (String × Json) → String → Option Json
  | [], _ => none
  | (k2, v) :: rest, k => if k2 = k then some v else lookupField rest k

/-- JavaScript property access `v.k`: a binding on objects, `undefined`
(`none`) on every other value.  (On `null`/`undefined` JavaScript would
throw; the handlers only apply this to values received as parsed JSON
bodies, where the claims under study concern object payloads.) -/
def getField : Json → String → Option Json
  | .obj fields, k => lookupField fields k
  | _, _ => none

/-- JavaScript `a || b` on possibly-undefined values: the first operand if
truthy, otherwise the second. -/
def jsOr (a b : Option Json) : Option Json :=
  match a with
  | some v => if truthy v then some v else b
  | none => b

/-- JavaScript optional chaining `o?.k`. -/
def optChain (o : Option Json) (k : String) : Option Json :=
  match o with
  | none => none
  | some .null => none
  | some v => getField v k

/-- One character of a JSON-stringified string, with the escapes relevant
to the values this service manipulates. -/
def jsonEscapeChar (c : Char) : String :=
  if c = '"' then "\\\""
  else if c = '\\' then "\\\\"
  else if c = '\n' then "\\n"
  else if c = '\t' then "\\t"
  else if c = '\r' then "\\r"
  else String.singleton c

def jsonQuote (s : String) : String :=
  "\"" ++ String.join (s.toList.map jsonEscapeChar) ++ "\""

mutual

/-- Model of `JSON.stringify` as used for fallback dedupe keys and error
detail serialization. -/
def jstringify : Json → String
  | .null => "null"
  | .bool b => if b then "true" else "false"
  | .num n => toString n
  | .str s => jsonQuote s
  | .arr a => "[" ++ jstringifyList a ++ "]"
  | .obj f => "\x7b" ++ jstringifyFields f ++ "\x7d"

def jstringifyList : List Json → String
  | [] => ""
  | [x] => jstringify x
  | x :: xs => jstringify x ++ "," ++ jstringifyList xs

def jstringifyFields : List (String × Json) → String
  | [] => ""
  | [(k, v)] => jsonQuote k ++ ":" ++ jstringify v
  | (k, v) :: xs => jsonQuote k ++ ":" ++ jstringify v ++ "," ++ jstringifyFields xs

end

/-- Characters `encodeURIComponent` leaves unescaped: ASCII alphanumerics
and `- _ . ! ~ * ( )` and the apostrophe (listed by character code). -/
def isUnreservedURIChar (c : Char) : Bool :=
  c.isAlpha || c.isDigit || [45, 95, 46, 33, 126, 42, 39, 40, 41].contains c.toNat

def hexDigitChar (n : Nat) : Char :=
  if n < 10 then Char.ofNat (48 + n) else Char.ofNat (55 + n)

def percentEncodeByte (b : Nat) : String :=
  "%" ++ String.singleton (hexDigitChar (b / 16)) ++ String.singleton (hexDigitChar (b % 16))

/-- UTF-8 bytes of a code point. -/
def utf8Bytes (n : Nat) : List Nat :=
  if n < 128 then [n]
  else if n < 2048 then [192 + n / 64, 128 + n % 64]
  else if n < 65536 then [224 + n / 4096, 128 + (n / 64) % 64, 128 + n % 64]
  else [240 + n / 262144, 128 + (n / 4096) % 64, 128 + (n / 64) % 64, 128 + n % 64]

def encodeURIComponent (s : String) : String :=
  String.join (s.toList.map fun c =>
    if isUnreservedURIChar c then String.singleton c
    else String.join ((utf8Bytes c.toNat).map percentEncodeByte))

/-- `buildLinkedInSearchUrl(title, company)`: the search URL embedding the
title and the quoted company, percent-encoded. -/
def buildLinkedInSearchUrl (title company : String) : String :=
  "https://www.linkedin.com/search/results/people/?keywords=" ++
    encodeURIComponent (title ++ " \"" ++ company ++ "\"")

/-- Default title list used when the request supplies no titles. -/
def DEFAULT_TITLES : List String :=
  ["Product Regulatory Manager",
   "Regulatory Compliance Director",
   "Product Stewardship Director",
   "Product Sustainability Director"]

/-- `normalizeToArray(resultObject)`: falsy payloads give `[]`; arrays are
returned as-is; otherwise the fields `data`, `results`, `profiles` are
probed in order for an array; else `[]`.  The argument is `none` when the
payload is absent (`undefined`) and `some Json.null` for `null`. -/
def normalizeToArray (resultObject : Option Json) : List Json :=
  match resultObject with
  | none => []
  | some j =>
    if truthy j = false then []
    else
      match j with
      | .arr xs => xs
      | _ =>
        match getField j "data" with
        | some (.arr xs) => xs
        | _ =>
          match getField j "results" with
          | some (.arr xs) => xs
          | _ =>
            match getField j "profiles" with
            | some (.arr xs) => xs
            | _ => []

/-- The dedupe key computed by `dedupeByUrl`:
`it.profileUrl || it.url || it.linkedinProfileUrl || it.publicProfileUrl ||
JSON.stringify(it)` — the first *truthy* URL-ish field, with the
stringification of the whole item as fallback. -/
def jsKey (it : Json) : Json :=
  match jsOr (getField it "profileUrl")
        (jsOr (getField it "url")
         (jsOr (getField it "linkedinProfileUrl") (getField it "publicProfileUrl"))) with
  | some v => if truthy v then v else .str (jstringify it)
  | none => .str (jstringify it)

/-- Membership of a key in the `seen` set, modelled as a list scanned with
the structural JSON equality. -/
def seenHas (seen : List Json) (k : Json) : Bool :=
  seen.any (fun s => jeq s k)

/-- The loop of `dedupeByUrl`, with the `seen` set and the `out` list as
accumulators. -/
def dedupeGo : List Json → List Json → List Json → List Json
  | _, out, [] => out
  | seen, out, it :: rest =>
    let key := jsKey it
    if seenHas seen key then dedupeGo seen out rest
    else dedupeGo (key :: seen) (out ++ [it]) rest

/-- `dedupeByUrl(items)`: keeps the first occurrence per computed key. -/
def dedupeByUrl (items : List Json) : List Json :=
  dedupeGo [] [] items

/-- `truncateArray(arr, max)`: `arr.slice(0, max)` on arrays, identity on
every other value. -/
def truncateArray (j : Json) (max : Nat) : Json :=
  match j with
  | .arr xs => .arr (xs.take max)
  | other => other

example : normalizeToArray (some (.obj [("results", .arr [.num 1, .num 2])])) = [.num 1, .num 2] := rfl

example : dedupeByUrl
    [.obj [("url", .str "a")], .obj [("url", .str "b")], .obj [("url", .str "a")]]
    = [.obj [("url", .str "a")], .obj [("url", .str "b")]] := rfl

example : truncateArray (.arr [.num 1, .num 2, .num 3, .num 4, .num 5]) 3
    = .arr [.num 1, .num 2, .num 3] := rfl

example : buildLinkedInSearchUrl "CEO" "Acme Co"
    = "https://www.linkedin.com/search/results/people/?keywords=CEO%20%22Acme%20Co%22" := by
  decide

/-- JavaScript `String.prototype.trim`: strip leading and trailing
whitespace.  Implemented over the character list so that it evaluates
inside the kernel. -/
def jsTrim (s : String) : String :=
  String.mk (((s.toList.dropWhile Char.isWhitespace).reverse.dropWhile
    Char.isWhitespace).reverse)

/-- Run status strings written by the service. -/
inductive RunStatus where
  | running | finished | aborted | error
deriving DecidableEq, Repr

/-- A per-title run record.  `url`/`containerId`/`error` use `none` for the
stored JavaScript `null`; `resultObject` is `none` when the stored value is
`null` (the service stores `resultObject || null`). -/
structure Run where
  title : String
  url : Option String
  containerId : Option String
  status : RunStatus
  resultObject : Option Json
  error : Option String
deriving Repr

/-- A batch record: company, requested titles, creation time, and the runs
object (modelled as an insertion-ordered association list keyed by title;
JavaScript additionally fronts integer-like keys, which no claim relies
on). -/
structure Batch where
  company : String
  titles : List String
  createdAt : Nat
  runs : List (String × Run)
deriving Repr

/-- First binding of a key in an association list. -/
def assocGet {α : Type} : List (String × α) → String → Option α
  | [], _ => none
  | (k2, v) :: rest, k => if k2 = k then some v else assocGet rest k

/-- Does the association list carry the key? -/
def assocHasKey {α : Type} (m : List (String × α)) (k : String) : Bool :=
  m.any (fun p => decide (p.1 = k))

/-- JavaScript object assignment `m[k] = v`: replace in place when the key
exists, else append. -/
def assocSet {α : Type} (m : List (String × α)) (k : String) (v : α) : List (String × α) :=
  if assocHasKey m k then m.map (fun p => if p.1 = k then (k, v) else p)
  else m ++ [(k, v)]

/-- What `pollSingleRun` hands back to the poll loop: the extracted status
and result payload (possibly `undefined`, hence `Option`) and the error
value (`out.error || null`, hence plain `Json` with `null` for absence). -/
structure PollResult where
  status : Option Json
  resultObject : Option Json
  error : Json
deriving Repr

/-- Extraction performed by `pollSingleRun` on a successful output call:
`status = out.status || out.data?.status`, likewise for `resultObject`,
and `error = out.error || null`. -/
def pollOutputToResult (out : Json) : PollResult :=
  { status := jsOr (getField out "status") (optChain (getField out "data") "status"),
    resultObject := jsOr (getField out "resultObject") (optChain (getField out "data") "resultObject"),
    error :=
      match getField out "error" with
      | some v => if truthy v then v else .null
      | none => .null }

/-- Outcome of one remote output call: a response body, or a transport
failure with its detail (`e?.response?.data || e.message`). -/
inductive HttpResult where
  | ok (body : Json)
  | failed (detail : Json)
deriving Repr

/-- `pollSingleRun(containerId)` given the remote call's outcome: extract
status/result on success; on transport failure return a synthetic
`status: "error"` carrying the failure detail (`|| "Unknown error"`). -/
def pollSingleRun (r : HttpResult) : PollResult :=
  match r with
  | .ok body => pollOutputToResult body
  | .failed detail =>
    { status := some (.str "error"),
      resultObject := some .null,
      error := if truthy detail then detail else .str "Unknown error" }

/-- Does the extracted status equal the given status string
(`status === "finished"` and friends)? -/
def isStatusStr (pr : PollResult) (s : String) : Bool :=
  match pr.status with
  | some (.str t) => t == s
  | _ => false

/-- Storage of a payload as `resultObject || null`: truthy payloads are kept
verbatim, everything else (absent or falsy) becomes `null`. -/
def storedResult (o : Option Json) : Option Json :=
  match o with
  | some v => if truthy v then some v else none
  | none => none

/-- Storage of a poll error as
`error ? (typeof error === "string" ? error : JSON.stringify(error)) : null`. -/
def errorToStored (e : Json) : Option String :=
  if truthy e then
    some (match e with
          | .str s => s
          | other => jstringify other)
  else none

/-- The update applied to a running run from one poll result, together with
the `somethingStillRunning` contribution (the `else` branch). -/
def applyPoll (run : Run) (pr : PollResult) : Run × Bool :=
  if isStatusStr pr "finished" then
    ({ run with status := .finished, resultObject := storedResult pr.resultObject }, false)
  else if isStatusStr pr "aborted" || isStatusStr pr "error" then
    ({ run with status := if isStatusStr pr "error" then .error else .aborted,
                error := errorToStored pr.error }, false)
  else (run, true)

/-- One poll step for one run, as performed inside `GET /results/:batchId`:
only runs that are `running` and hold a containerId are probed (`env` maps a
containerId to the poll result of this round's probe); every other run is
left untouched and does not mark the round as still running. -/
def stepRun (env : String → PollResult) (run : Run) : Run × Bool :=
  if run.status = .running then
    match run.containerId with
    | some cid => applyPoll run (env cid)
    | none => (run, false)
  else (run, false)

/-- One polling round over the batch: every run is stepped (the remote
probes of a round are dispatched together; `env` gives each probe's
result), and the round reports whether something is still running. -/
def pollRound (runs : List (String × Run)) (env : String → PollResult) :
    List (String × Run) × Bool :=
  let stepped := runs.map (fun p => (p.1, stepRun env p.2))
  (stepped.map (fun p => (p.1, p.2.1)), stepped.any (fun p => p.2.2))

/-- The bounded polling loop of `GET /results/:batchId`.  `oracle` gives the
probe results of each round, `dur` the wall-clock milliseconds a round's
probes take, `interval` is `POLL_EVERY_MS` and `budget` is
`MAX_SINGLE_POLL_WAIT_MS`.  `elapsed` tracks `Date.now() - start`.  The
`fuel` argument only feeds the recursion: the claim C8 theorem shows a fuel
derived from `budget / interval` is never exhausted, so the loop is bounded
by the wall-clock budget. -/
def pollLoop (oracle : Nat → String → PollResult) (dur : Nat → Nat)
    (interval budget : Nat) :
    Nat → Nat → Nat → List (String × Run) → List (String × Run)
  | 0, _, _, runs => runs
  | fuel + 1, round, elapsed, runs =>
    if budget ≤ elapsed then runs
    else if (pollRound runs (oracle round)).2 = false then (pollRound runs (oracle round)).1
    else if elapsed + dur round + interval < budget then
      pollLoop oracle dur interval budget fuel (round + 1) (elapsed + dur round + interval)
        (pollRound runs (oracle round)).1
    else (pollRound runs (oracle round)).1

/-- Result of one launch attempt (`launchRunForTitle`): a containerId, or a
failure with the HTTP status (absent on network errors) and the failure
detail. -/
inductive AttemptResult where
  | ok (containerId : String)
  | fail (httpStatus : Option Nat) (detail : String)
deriving Repr

/-- Failure classification of the retry loop:
`!status || status >= 500 || status === 429 || status === 408` selects the
aggressive (exponential) backoff branch. -/
def aggressiveBackoff (st : Option Nat) : Bool :=
  match st with
  | none => true
  | some s => s == 0 || 500 ≤ s || s == 429 || s == 408

/-- The message of the error thrown when retries are exhausted. -/
def exceededMsg (maxRetries : Nat) (title detail : String) : String :=
  "Exceeded max retries (" ++ toString maxRetries ++ ") for title \"" ++ title ++
    "\". Last error: " ++ detail

/-- The message of the (unreachable) throw after the retry loop. -/
def failedAfterMsg (title : String) (maxRetries : Nat) : String :=
  "Failed to launch \"" ++ title ++ "\" after " ++ toString maxRetries ++ " attempts"

/-- Trace of one `launchRunForTitleWithRetry` call: the outcome, the waits
slept between attempts (each a backoff delay plus its jitter draw), and the
number of launch attempts issued. -/
structure RetryTrace where
  result : Except String String
  sleeps : List Nat
  attempts : Nat
deriving Repr

/-- The retry loop body.  `ar` gives each attempt's outcome and `jit` each
wait's random jitter draw (`withJitter`).  `attempt` and `delay` mirror the
source variables; `fuel` mirrors `maxRetries - attempt`, so the `fuel = 0`
case is exactly the throw after the `while` (unreachable for
`fuel = maxRetries`, `attempt = 0`).  On an aggressive-class failure the
wait is `delay` plus jitter and `delay` is multiplied by `factor`
afterwards; on other client errors the wait is `min delay 5000` plus jitter
and `delay` is kept. -/
def retryGo (ar : Nat → AttemptResult) (jit : Nat → Nat) (factor maxRetries : Nat)
    (title : String) : Nat → Nat → Nat → List Nat → RetryTrace
  | 0, attempt, _, sleeps => ⟨.error (failedAfterMsg title maxRetries), sleeps, attempt⟩
  | fuel + 1, attempt, delay, sleeps =>
    match ar attempt with
    | .ok cid => ⟨.ok cid, sleeps, attempt + 1⟩
    | .fail st detail =>
      if maxRetries ≤ attempt + 1 then
        ⟨.error (exceededMsg maxRetries title detail), sleeps, attempt + 1⟩
      else if aggressiveBackoff st then
        retryGo ar jit factor maxRetries title fuel (attempt + 1) (delay * factor)
          (sleeps ++ [delay + jit attempt])
      else
        retryGo ar jit factor maxRetries title fuel (attempt + 1) delay
          (sleeps ++ [min delay 5000 + jit attempt])

/-- `launchRunForTitleWithRetry(title, company)` over an attempt oracle. -/
def launchRunForTitleWithRetry (ar : Nat → AttemptResult) (jit : Nat → Nat)
    (baseDelay factor maxRetries : Nat) (title : String) : RetryTrace :=
  retryGo ar jit factor maxRetries title maxRetries 0 baseDelay []

/-- The run record stored for a successfully launched title. -/
def mkRunOk (title company cid : String) : Run :=
  { title := title, url := some (buildLinkedInSearchUrl title company),
    containerId := some cid, status := .running, resultObject := none, error := none }

/-- The run record stored when a title's launch failed for good. -/
def mkRunErr (title msg : String) : Run :=
  { title := title, url := none, containerId := none,
    status := .error, resultObject := none, error := some msg }

/-- The run record stored for the `i`-th title, according to its launch
outcome. -/
def launchedRun (company : String) (launch : Nat → String → Except String String)
    (i : Nat) (t : String) : Run :=
  match launch i t with
  | .ok cid => mkRunOk t company cid
  | .error msg => mkRunErr t msg

/-- The sequential launch loop of `POST /search-profiles`: for the `i`-th
title, `launch i title` is the outcome of `launchRunForTitleWithRetry`
(containerId, or the recorded error message); each title's run is written
into the runs object.  The stagger sleeps between launches do not affect
the stored state and are not tracked here. -/
def launchRuns (company : String) (launch : Nat → String → Except String String) :
    List (Nat × String) → List (String × Run) → List (String × Run)
  | [], runs => runs
  | (i, t) :: rest, runs =>
    launchRuns company launch rest (assocSet runs t (launchedRun company launch i t))

/-- The per-run projection returned in the `runs` object of the POST
response. -/
structure RunView where
  containerId : Option String
  status : RunStatus
  url : Option String
  error : Option String
deriving Repr

def runView (r : Run) : RunView :=
  ⟨r.containerId, r.status, r.url, r.error⟩

/-- The POST response body (success case). -/
structure PostResponse where
  batchId : String
  company : String
  titles : List String
  runs : List (String × RunView)
deriving Repr

/-- Everything observable about one `POST /search-profiles` call: the HTTP
status, the batch table afterwards, the titles for which a launch was
attempted (in order), and the response body. -/
structure PostOutcome where
  httpStatus : Nat
  table : List (String × Batch)
  launched : List String
  errorBody : Option String
  response : Option PostResponse
deriving Repr

/-- `POST /search-profiles`.  `company?`/`titles?` model `req.body.company`
(as an optional string) and `req.body.titles` (as an optional string list;
a non-array value behaves like an absent one).  `batchId` stands for the
freshly generated `crypto.randomUUID()` and `createdAt` for `Date.now()`.
`launch i t` is the outcome of the (staggered, retried) launch of the
`i`-th title. -/
def postSearchProfiles (table : List (String × Batch)) (batchId : String) (createdAt : Nat)
    (company? : Option String) (titles? : Option (List String))
    (launch : Nat → String → Except String String) : PostOutcome :=
  let company := jsTrim (company?.getD "")
  let titles0 := titles?.getD []
  if company = "" then
    { httpStatus := 400, table := table, launched := [],
      errorBody := some "Company is required.", response := none }
  else
    let titles := if titles0 = [] then DEFAULT_TITLES else titles0
    let runs := launchRuns company launch titles.enum []
    let batch : Batch := ⟨company, titles, createdAt, runs⟩
    { httpStatus := 200, table := assocSet table batchId batch,
      launched := titles, errorBody := none,
      response := some ⟨batchId, company, titles, runs.map (fun p => (p.1, runView p.2))⟩ }

/-- The merge step of `GET /results/:batchId`: the normalized payloads of
every run that is `finished` with a truthy stored `resultObject`,
concatenated in run order. -/
def mergeFinished (runs : List (String × Run)) : List Json :=
  runs.foldl
    (fun acc p =>
      if p.2.status = .finished then
        match p.2.resultObject with
        | some ro => if truthy ro then acc ++ normalizeToArray (some ro) else acc
        | none => acc
      else acc)
    []

/-- In-place update of an object's field (`{ ...ro, data: x }` keeps the
original key order and overrides `data`). -/
def setField : List (String × Json) → String → Json → List (String × Json)
  | [], k, v => [(k, v)]
  | (k2, v2) :: rest, k, v =>
    if k2 = k then (k2, v) :: rest else (k2, v2) :: setField rest k v

def objSetField (j : Json) (k : String) (v : Json) : Json :=
  match j with
  | .obj fields => .obj (setField fields k v)
  | other => other

/-- The per-title truncation of `GET /results/:batchId`: a payload that is
itself an array is sliced to `max`; a truthy payload whose `data` field is
an array gets that field sliced; every other payload (including the
`results`/`profiles` shapes) is returned unchanged. -/
def truncatePerTitle (ro : Option Json) (max : Nat) : Option Json :=
  match ro with
  | some (.arr xs) => some (.arr (xs.take max))
  | some j =>
    if truthy j then
      match getField j "data" with
      | some (.arr xs) => some (objSetField j "data" (.arr (xs.take max)))
      | _ => some j
    else some j
  | none => none

/-- One entry of the `perTitle` object of the results response. -/
structure PerTitleEntry where
  status : RunStatus
  containerId : Option String
  url : Option String
  resultObject : Option Json
  error : Option String
deriving Repr

def perTitleEntry (r : Run) (maxResults : Nat) : PerTitleEntry :=
  ⟨r.status, r.containerId, r.url, truncatePerTitle r.resultObject maxResults, r.error⟩

/-- The results response body (success case). -/
structure ResultsResponse where
  batchId : String
  company : String
  titles : List String
  allFinished : Bool
  mergedCount : Nat
  merged : List Json
  perTitle : List (String × PerTitleEntry)
deriving Repr

/-- `GET /results/:batchId`: look the batch up (404 when unknown), run the
bounded polling loop, merge and dedupe the finished runs' normalized
payloads, truncate (`truncateArray(merged, MAX_RESULTS_RETURNED)` on the
merged array is `take maxResults`), and answer with `allFinished`,
`mergedCount` (the length of the truncated merged list) and the truncated
per-title views.  Returns the HTTP status, the batch table after the loop's
in-place run mutations, and the response body. -/
def getResults (table : List (String × Batch)) (batchId : String)
    (oracle : Nat → String → PollResult) (dur : Nat → Nat)
    (interval budget maxResults fuel : Nat) :
    Nat × List (String × Batch) × Option ResultsResponse :=
  match assocGet table batchId with
  | none => (404, table, none)
  | some batch =>
    let runs := pollLoop oracle dur interval budget fuel 0 0 batch.runs
    let merged := dedupeByUrl (mergeFinished runs)
    let truncatedMerged := merged.take maxResults
    let allFinished := runs.all
      (fun p => p.2.status == .finished || p.2.status == .aborted || p.2.status == .error)
    (200, assocSet table batchId { batch with runs := runs },
     some { batchId := batchId, company := batch.company, titles := batch.titles,
            allFinished := allFinished, mergedCount := truncatedMerged.length,
            merged := truncatedMerged,
            perTitle := runs.map (fun p => (p.1, perTitleEntry p.2 maxResults)) })

/-- First-occurrence-per-key sublist: keep each item and drop every later
item whose key matches it.  This is the specification-side formulation of
order-preserving, first-seen-wins deduplication, to be compared with the
accumulator loop `dedupeByUrl`. -/
def firstOccurBy (key : Json → Json) : List Json → List Json
  | [] => []
  | x :: xs => x :: firstOccurBy key (xs.filter (fun y => !jeq (key x) (key y)))
termination_by l => l.length
decreasing_by
  simp only [List.length_cons]
  exact Nat.lt_succ_of_le (List.length_filter_le _ _)

/-- Modelled from the spec: the identity key as claim C5 words it — the
first *present* field among `profileUrl`, `url`, `linkedinProfileUrl`,
`publicProfileUrl`, falling back to the item's full JSON serialization when
none of those fields exists.  Declared only to compare the claim's
description against the key `dedupeByUrl` actually computes (`jsKey`). -/
def specKeyFirstPresent (it : Json) : Json :=
  match getField it "profileUrl" with
  | some v => v
  | none =>
    match getField it "url" with
    | some v => v
    | none =>
      match getField it "linkedinProfileUrl" with
      | some v => v
      | none =>
        match getField it "publicProfileUrl" with
        | some v => v
        | none => .str (jstringify it)

theorem firstOccurBy_nil (key : Json → Json) : firstOccurBy key [] = [] := by
  simp [firstOccurBy]

theorem firstOccurBy_cons (key : Json → Json) (x : Json) (xs : List Json) :
    firstOccurBy key (x :: xs)
      = x :: firstOccurBy key (xs.filter (fun y => !jeq (key x) (key y))) := by
  rw [firstOccurBy]

/-- Items separating the first-present-field key from the first-truthy-field
key: both carry a present but falsy (empty-string) `profileUrl`. -/
def c5item1 : Json := .obj [("profileUrl", .str "")]

def c5item2 : Json := .obj [("profileUrl", .str ""), ("url", .str "x")]

example : dedupeByUrl [c5item1, c5item2] = [c5item1, c5item2] := rfl

example : firstOccurBy specKeyFirstPresent [c5item1, c5item2] = [c5item1] := by
  rw [firstOccurBy_cons,
      show List.filter (fun y => !jeq (specKeyFirstPresent c5item1) (specKeyFirstPresent y)) [c5item2]
        = [] from rfl,
      firstOccurBy_nil]

example : firstOccurBy jsKey [c5item1, c5item2] = [c5item1, c5item2] := by
  rw [firstOccurBy_cons,
      show List.filter (fun y => !jeq (jsKey c5item1) (jsKey y)) [c5item2]
        = [c5item2] from rfl,
      firstOccurBy_cons, List.filter_nil, firstOccurBy_nil]


theorem dedupeGo_out (items : List Json) :
    ∀ (seen out : List Json), dedupeGo seen out items = out ++ dedupeGo seen [] items := by
  induction items with
  | nil => intro seen out; simp [dedupeGo]
  | cons x rest ih =>
    intro seen out
    by_cases h : seenHas seen (jsKey x) = true
    · rw [show dedupeGo seen out (x :: rest) = dedupeGo seen out rest by
            simp [dedupeGo, h],
          show dedupeGo seen [] (x :: rest) = dedupeGo seen [] rest by
            simp [dedupeGo, h]]
      exact ih seen out
    · rw [show dedupeGo seen out (x :: rest) = dedupeGo (jsKey x :: seen) (out ++ [x]) rest by
            simp [dedupeGo, h],
          show dedupeGo seen [] (x :: rest) = dedupeGo (jsKey x :: seen) ([] ++ [x]) rest by
            simp [dedupeGo, h]]
      rw [ih _ (out ++ [x]), ih _ ([] ++ [x])]
      simp

theorem seenHas_cons (s k : Json) (seen : List Json) :
    seenHas (s :: seen) k = (jeq s k || seenHas seen k) := by
  simp [seenHas]

theorem seenHas_nil (k : Json) : seenHas [] k = false := rfl

theorem dedupeGo_eq_firstOccurBy (items : List Json) :
    ∀ seen, dedupeGo seen [] items
      = firstOccurBy jsKey (items.filter (fun y => !seenHas seen (jsKey y))) := by
  induction items with
  | nil => intro seen; simp [dedupeGo, firstOccurBy_nil]
  | cons x rest ih =>
    intro seen
    by_cases h : seenHas seen (jsKey x) = true
    · rw [show dedupeGo seen [] (x :: rest) = dedupeGo seen [] rest by simp [dedupeGo, h],
          show List.filter (fun y => !seenHas seen (jsKey y)) (x :: rest)
             = List.filter (fun y => !seenHas seen (jsKey y)) rest by simp [List.filter_cons, h]]
      exact ih seen
    · have h' : seenHas seen (jsKey x) = false := by
        revert h; cases seenHas seen (jsKey x) <;> simp
      rw [show dedupeGo seen [] (x :: rest) = dedupeGo (jsKey x :: seen) ([] ++ [x]) rest by
            simp [dedupeGo, h'],
          show List.filter (fun y => !seenHas seen (jsKey y)) (x :: rest)
             = x :: List.filter (fun y => !seenHas seen (jsKey y)) rest by
            simp [List.filter_cons, h']]
      rw [dedupeGo_out, List.nil_append, ih (jsKey x :: seen), firstOccurBy_cons,
          List.filter_filter, List.singleton_append]
      congr 2
      apply List.filter_congr
      intro y _
      rw [seenHas_cons]
      cases hj : jeq (jsKey x) (jsKey y) <;> cases hs : seenHas seen (jsKey y) <;> simp [hj, hs]

theorem dedupeByUrl_eq_firstOccurBy (items : List Json) :
    dedupeByUrl items = firstOccurBy jsKey items := by
  rw [dedupeByUrl, dedupeGo_eq_firstOccurBy]
  congr 1
  rw [List.filter_eq_self]
  intro a _
  simp [seenHas_nil]

theorem firstOccurBy_sublist (key : Json → Json) :
    ∀ items, List.Sublist (firstOccurBy key items) items := by
  intro items
  induction items using firstOccurBy.induct key with
  | case1 => rw [firstOccurBy_nil]
  | case2 x xs ih =>
    rw [firstOccurBy_cons]
    exact List.Sublist.cons₂ x (ih.trans (List.filter_sublist xs))

theorem firstOccurBy_pairwise_id (key : Json → Json) :
    ∀ items, items.Pairwise (fun a b => jeq (key a) (key b) = false) →
      firstOccurBy key items = items := by
  intro items
  induction items with
  | nil => exact fun _ => firstOccurBy_nil key
  | cons x xs ih =>
    intro hp
    rw [List.pairwise_cons] at hp
    rw [firstOccurBy_cons,
        show List.filter (fun y => !jeq (key x) (key y)) xs = xs from
          List.filter_eq_self.mpr (fun a ha => by simp [hp.1 a ha]),
        ih hp.2]


theorem mergeStep (acc : List Json) (p : String × Run) (hp : p.2.status = RunStatus.finished) :
    (if p.2.status = RunStatus.finished then
        match p.2.resultObject with
        | some ro => if truthy ro then acc ++ normalizeToArray (some ro) else acc
        | none => acc
      else acc)
    = acc ++ normalizeToArray p.2.resultObject := by
  rw [if_pos hp]
  cases hro : p.2.resultObject with
  | none => simp [normalizeToArray]
  | some ro =>
    cases ht : truthy ro with
    | true => simp [ht]
    | false =>
      have hn : normalizeToArray (some ro) = [] := by
        simp [normalizeToArray, ht]
      simp [ht, hn]

theorem mergeFinished_aux (runs : List (String × Run)) :
    ∀ acc, (∀ p ∈ runs, p.2.status = RunStatus.finished) →
      runs.foldl
        (fun acc p =>
          if p.2.status = RunStatus.finished then
            match p.2.resultObject with
            | some ro => if truthy ro then acc ++ normalizeToArray (some ro) else acc
            | none => acc
          else acc)
        acc
      = acc ++ (runs.map (fun p => normalizeToArray p.2.resultObject)).flatten := by
  induction runs with
  | nil => intro acc _; simp
  | cons p rest ih =>
    intro acc hfin
    rw [List.foldl_cons, mergeStep acc p (hfin p (List.mem_cons_self p rest)),
        ih _ (fun q hq => hfin q (List.mem_cons_of_mem p hq))]
    simp

theorem mergeFinished_eq_flatten (runs : List (String × Run))
    (hfin : ∀ p ∈ runs, p.2.status = RunStatus.finished) :
    mergeFinished runs = (runs.map (fun p => normalizeToArray p.2.resultObject)).flatten := by
  rw [mergeFinished, mergeFinished_aux runs [] hfin, List.nil_append]

theorem assocHasKey_cons {α : Type} (q : String × α) (rest : List (String × α)) (k : String) :
    assocHasKey (q :: rest) k = (decide (q.1 = k) || assocHasKey rest k) := by
  simp [assocHasKey]

theorem assocGet_append_right {α : Type} (m : List (String × α)) (k : String) (v : α)
    (h : assocHasKey m k = false) :
    assocGet (m ++ [(k, v)]) k = some v := by
  induction m with
  | nil => simp [assocGet]
  | cons q rest ih =>
    rw [assocHasKey_cons, Bool.or_eq_false_iff] at h
    rw [List.cons_append]
    show (if q.1 = k then some q.2 else assocGet (rest ++ [(k, v)]) k) = some v
    rw [if_neg (by simpa using h.1)]
    exact ih h.2

theorem assocGet_map_set {α : Type} (k : String) (v : α) :
    ∀ m : List (String × α), assocHasKey m k = true →
      assocGet (m.map (fun p => if p.1 = k then (k, v) else p)) k = some v := by
  intro m
  induction m with
  | nil => intro h; simp [assocHasKey] at h
  | cons q rest ih =>
    intro h
    by_cases hq : q.1 = k
    · rw [List.map_cons, if_pos hq]
      show (if k = k then some v else _) = some v
      rw [if_pos rfl]
    · rw [List.map_cons, if_neg hq]
      show (if q.1 = k then some q.2 else
              assocGet (rest.map (fun p => if p.1 = k then (k, v) else p)) k) = some v
      rw [if_neg hq]
      apply ih
      rw [assocHasKey_cons] at h
      simpa [hq] using h

theorem assocGet_assocSet {α : Type} (m : List (String × α)) (k : String) (v : α) :
    assocGet (assocSet m k v) k = some v := by
  rw [assocSet]
  split
  · next hk => exact assocGet_map_set k v m hk
  · next hk =>
    exact assocGet_append_right m k v (by revert hk; cases assocHasKey m k <;> simp)

theorem assocGet_map_set_ne {α : Type} (k k2 : String) (v : α) (h : k ≠ k2) :
    ∀ m : List (String × α),
      assocGet (m.map (fun p => if p.1 = k then (k, v) else p)) k2 = assocGet m k2 := by
  intro m
  induction m with
  | nil => rfl
  | cons q rest ih =>
    by_cases hq : q.1 = k
    · rw [List.map_cons, if_pos hq]
      show (if k = k2 then some v else _) = _
      rw [if_neg h]
      show _ = (if q.1 = k2 then some q.2 else assocGet rest k2)
      rw [if_neg (by rw [hq]; exact h)]
      exact ih
    · rw [List.map_cons, if_neg hq]
      show (if q.1 = k2 then some q.2 else _) = (if q.1 = k2 then some q.2 else assocGet rest k2)
      by_cases hq2 : q.1 = k2
      · rw [if_pos hq2, if_pos hq2]
      · rw [if_neg hq2, if_neg hq2]; exact ih

theorem assocGet_append_ne {α : Type} (k k2 : String) (v : α) (h : k ≠ k2) :
    ∀ m : List (String × α), assocGet (m ++ [(k, v)]) k2 = assocGet m k2 := by
  intro m
  induction m with
  | nil =>
    show (if k = k2 then some v else none) = none
    rw [if_neg h]
  | cons q rest ih =>
    rw [List.cons_append]
    show (if q.1 = k2 then some q.2 else assocGet (rest ++ [(k, v)]) k2)
       = (if q.1 = k2 then some q.2 else assocGet rest k2)
    by_cases hq2 : q.1 = k2
    · rw [if_pos hq2, if_pos hq2]
    · rw [if_neg hq2, if_neg hq2]; exact ih

theorem assocGet_assocSet_ne {α : Type} (m : List (String × α)) (k k2 : String) (v : α)
    (h : k ≠ k2) : assocGet (assocSet m k v) k2 = assocGet m k2 := by
  rw [assocSet]
  split
  · exact assocGet_map_set_ne k k2 v h m
  · exact assocGet_append_ne k k2 v h m

theorem assocHasKey_iff_mem {α : Type} (m : List (String × α)) (k : String) :
    assocHasKey m k = true ↔ k ∈ m.map Prod.fst := by
  simp only [assocHasKey, List.any_eq_true, decide_eq_true_eq, List.mem_map]

theorem assocHasKey_eq_false_iff {α : Type} (m : List (String × α)) (k : String) :
    assocHasKey m k = false ↔ k ∉ m.map Prod.fst := by
  rw [← assocHasKey_iff_mem]
  cases assocHasKey m k <;> simp

theorem assocSet_keys {α : Type} (m : List (String × α)) (k : String) (v : α) :
    (assocSet m k v).map Prod.fst
      = if assocHasKey m k then m.map Prod.fst else m.map Prod.fst ++ [k] := by
  cases hk : assocHasKey m k with
  | true =>
    rw [assocSet, if_pos hk, if_pos rfl, List.map_map]
    apply List.map_congr_left
    intro p _
    by_cases h : p.1 = k
    · show Prod.fst (if p.1 = k then (k, v) else p) = p.1
      rw [if_pos h, h]
    · show Prod.fst (if p.1 = k then (k, v) else p) = p.1
      rw [if_neg h]
  | false =>
    rw [assocSet, if_neg (by simp [hk]), if_neg (by simp), List.map_append]
    rfl

theorem assocSet_mem {α : Type} (m : List (String × α)) (k : String) (v : α) :
    ∀ p ∈ assocSet m k v, p ∈ m ∨ p = (k, v) := by
  rw [assocSet]
  split
  · intro p hp
    rw [List.mem_map] at hp
    obtain ⟨q, hq, he⟩ := hp
    by_cases h : q.1 = k
    · right; rw [← he, if_pos h]
    · left; rw [← he, if_neg h]; exact hq
  · intro p hp
    rw [List.mem_append] at hp
    rcases hp with hp | hp
    · exact Or.inl hp
    · right; simpa using hp

theorem launchRuns_keys_nodup (c : String) (launch : Nat → String → Except String String) :
    ∀ (ts : List (Nat × String)) (runs : List (String × Run)),
      (runs.map Prod.fst).Nodup → ((launchRuns c launch ts runs).map Prod.fst).Nodup := by
  intro ts
  induction ts with
  | nil => intro runs h; exact h
  | cons q rest ih =>
    intro runs h
    obtain ⟨i, t⟩ := q
    show ((launchRuns c launch rest (assocSet runs t (launchedRun c launch i t))).map Prod.fst).Nodup
    apply ih
    rw [assocSet_keys]
    split
    · exact h
    · next hk =>
      have : t ∉ runs.map Prod.fst := by
        rw [← assocHasKey_eq_false_iff]
        revert hk; cases assocHasKey runs t <;> simp
      simp [List.nodup_append, h, this]

theorem launchRuns_mem_keys (c : String) (launch : Nat → String → Except String String) :
    ∀ (ts : List (Nat × String)) (runs : List (String × Run)) (t : String),
      t ∈ (launchRuns c launch ts runs).map Prod.fst
        ↔ (t ∈ runs.map Prod.fst ∨ t ∈ ts.map Prod.snd) := by
  intro ts
  induction ts with
  | nil => intro runs t; simp [launchRuns]
  | cons q rest ih =>
    intro runs t
    obtain ⟨i, u⟩ := q
    show t ∈ (launchRuns c launch rest (assocSet runs u (launchedRun c launch i u))).map Prod.fst ↔ _
    rw [ih]
    rw [assocSet_keys]
    by_cases hk : assocHasKey runs u = true
    · rw [if_pos hk]
      have hu : u ∈ runs.map Prod.fst := (assocHasKey_iff_mem _ _).mp hk
      simp only [List.map_cons, List.mem_cons]
      constructor
      · tauto
      · rintro (h | h | h)
        · exact Or.inl h
        · exact Or.inl (h ▸ hu)
        · exact Or.inr h
    · rw [if_neg hk]
      simp only [List.mem_append, List.mem_singleton, List.map_cons, List.mem_cons]
      tauto

theorem launchRuns_get_absent (c : String) (launch : Nat → String → Except String String) :
    ∀ (ts : List (Nat × String)) (runs : List (String × Run)) (t : String),
      t ∉ ts.map Prod.snd →
      assocGet (launchRuns c launch ts runs) t = assocGet runs t := by
  intro ts
  induction ts with
  | nil => intro runs t _; rfl
  | cons q rest ih =>
    intro runs t ht
    obtain ⟨i, u⟩ := q
    simp only [List.map_cons, List.mem_cons, not_or] at ht
    show assocGet (launchRuns c launch rest (assocSet runs u (launchedRun c launch i u))) t = _
    rw [ih _ t ht.2, assocGet_assocSet_ne _ _ _ _ (fun he => ht.1 he.symm)]

theorem assocHasKey_assocSet {α : Type} (m : List (String × α)) (k k2 : String) (v : α) :
    assocHasKey (assocSet m k v) k2 = (assocHasKey m k2 || decide (k2 = k)) := by
  by_cases h : k2 ∈ (assocSet m k v).map Prod.fst
  · rw [(assocHasKey_iff_mem _ _).mpr h]
    rw [assocSet_keys] at h
    by_cases hm : k2 ∈ m.map Prod.fst
    · rw [(assocHasKey_iff_mem _ _).mpr hm]; rfl
    · have : k2 = k := by
        revert h
        split
        · intro h; exact absurd h hm
        · intro h
          rcases List.mem_append.mp h with h | h
          · exact absurd h hm
          · simpa using h
      simp [this]
  · have h' := h
    rw [← assocHasKey_eq_false_iff] at h'
    rw [h']
    rw [assocSet_keys] at h
    have hm : k2 ∉ m.map Prod.fst := by
      intro hc; apply h; split
      · exact hc
      · exact List.mem_append.mpr (Or.inl hc)
    have hne : ¬ k2 = k := by
      intro hc
      apply h
      split
      · next hk => exact hc ▸ (assocHasKey_iff_mem _ _).mp hk
      · exact List.mem_append.mpr (Or.inr (by simp [hc]))
    rw [(assocHasKey_eq_false_iff _ _).mpr hm]
    simp [hne]

theorem launchRuns_get_fresh (c : String) (launch : Nat → String → Except String String) :
    ∀ (ts : List (Nat × String)) (runs : List (String × Run)),
      (ts.map Prod.snd).Nodup →
      (∀ q ∈ ts, assocHasKey runs q.2 = false) →
      ∀ q ∈ ts, assocGet (launchRuns c launch ts runs) q.2
        = some (launchedRun c launch q.1 q.2) := by
  intro ts
  induction ts with
  | nil => intro runs _ _ q hq; exact absurd hq (List.not_mem_nil q)
  | cons p rest ih =>
    intro runs hnd hfresh q hq
    obtain ⟨i, u⟩ := p
    rw [List.map_cons, List.nodup_cons] at hnd
    rcases List.mem_cons.mp hq with he | hq2
    · subst he
      show assocGet (launchRuns c launch rest (assocSet runs u (launchedRun c launch i u))) u
        = some (launchedRun c launch i u)
      rw [launchRuns_get_absent c launch rest _ u hnd.1, assocGet_assocSet]
    · show assocGet (launchRuns c launch rest (assocSet runs u (launchedRun c launch i u))) q.2 = _
      apply ih _ hnd.2 _ q hq2
      intro r hr
      rw [assocHasKey_assocSet]
      have h1 : assocHasKey runs r.2 = false := hfresh r (List.mem_cons_of_mem _ hr)
      have h2 : ¬ r.2 = u := by
        intro hc
        have hm : r.2 ∈ rest.map Prod.snd := List.mem_map_of_mem Prod.snd hr
        rw [hc] at hm
        exact hnd.1 hm
      simp [h1, h2]

theorem launchRuns_shape (c : String) (launch : Nat → String → Except String String)
    (P : Run → Prop)
    (hok : ∀ t cid, P (mkRunOk t c cid)) (herr : ∀ t msg, P (mkRunErr t msg)) :
    ∀ (ts : List (Nat × String)) (runs : List (String × Run)),
      (∀ p ∈ runs, P p.2) → ∀ p ∈ launchRuns c launch ts runs, P p.2 := by
  intro ts
  induction ts with
  | nil => intro runs h p hp; exact h p hp
  | cons q rest ih =>
    intro runs h p hp
    obtain ⟨i, u⟩ := q
    refine ih _ ?_ p hp
    intro r hr
    rcases assocSet_mem _ _ _ r hr with hr | hr
    · exact h r hr
    · rw [hr]
      show P (launchedRun c launch i u)
      rw [launchedRun]
      cases launch i u with
      | ok cid => exact hok u cid
      | error msg => exact herr u msg

theorem stepRun_not_running (env : String → PollResult) (run : Run)
    (h : run.status ≠ RunStatus.running) : stepRun env run = (run, false) := by
  rw [stepRun, if_neg h]

theorem stepRun_changed_running (env : String → PollResult) (run : Run)
    (h : (stepRun env run).1 ≠ run) : run.status = RunStatus.running := by
  by_cases hs : run.status = RunStatus.running
  · exact hs
  · exact absurd (by rw [stepRun_not_running env run hs]) h

theorem pollRound_fst_eq (runs : List (String × Run)) (env : String → PollResult) :
    (pollRound runs env).1 = runs.map (fun p => (p.1, (stepRun env p.2).1)) := by
  show (runs.map (fun p => (p.1, stepRun env p.2))).map (fun p => (p.1, p.2.1))
     = runs.map (fun p => (p.1, (stepRun env p.2).1))
  rw [List.map_map]
  rfl

theorem pollRound_all_terminal (runs : List (String × Run)) (env : String → PollResult)
    (h : ∀ p ∈ runs, p.2.status ≠ RunStatus.running) :
    pollRound runs env = (runs, false) := by
  have h1 : (pollRound runs env).1 = runs := by
    rw [pollRound_fst_eq]
    have he : ∀ p ∈ runs, (fun p => ((p : String × Run).1, (stepRun env p.2).1)) p = id p := by
      intro p hp
      show (p.1, (stepRun env p.2).1) = p
      rw [stepRun_not_running env p.2 (h p hp)]
    rw [List.map_congr_left he, List.map_id]
  have h2 : (pollRound runs env).2 = false := by
    show ((runs.map (fun p => (p.1, stepRun env p.2))).any (fun p => p.2.2)) = false
    rw [List.any_eq_false]
    intro q hq
    rw [List.mem_map] at hq
    obtain ⟨r, hr, he⟩ := hq
    rw [← he]
    show ¬ (stepRun env r.2).2 = true
    rw [stepRun_not_running env r.2 (h r hr)]
    exact Bool.false_ne_true
  calc pollRound runs env = ((pollRound runs env).1, (pollRound runs env).2) := rfl
    _ = (runs, false) := by rw [h1, h2]

theorem pollLoop_all_terminal (oracle : Nat → String → PollResult) (dur : Nat → Nat)
    (interval budget : Nat) :
    ∀ (fuel round elapsed : Nat) (runs : List (String × Run)),
      (∀ p ∈ runs, p.2.status ≠ RunStatus.running) →
      pollLoop oracle dur interval budget fuel round elapsed runs = runs := by
  intro fuel
  induction fuel with
  | zero => intro round elapsed runs _; rfl
  | succ n _ =>
    intro round elapsed runs h
    simp only [pollLoop]
    split
    · rfl
    · rw [show pollRound runs (oracle round) = (runs, false) from
            pollRound_all_terminal runs (oracle round) h]
      simp

theorem pollLoop_fuel_stable (oracle : Nat → String → PollResult) (dur : Nat → Nat)
    (interval budget : Nat) :
    ∀ (fuel round elapsed : Nat) (runs : List (String × Run)),
      budget ≤ elapsed + fuel * interval →
      pollLoop oracle dur interval budget (fuel + 1) round elapsed runs
        = pollLoop oracle dur interval budget fuel round elapsed runs := by
  intro fuel
  induction fuel with
  | zero =>
    intro round elapsed runs hb
    simp only [Nat.zero_mul, Nat.add_zero] at hb
    simp only [pollLoop]
    rw [if_pos hb]
  | succ n ih =>
    intro round elapsed runs hb
    simp only [pollLoop]
    split
    · rfl
    · split
      · rfl
      · split
        · apply ih
          have : (n + 1) * interval = interval + n * interval := by ring
          omega
        · rfl

theorem pollLoop_preserves_terminal (oracle : Nat → String → PollResult) (dur : Nat → Nat)
    (interval budget : Nat) :
    ∀ (fuel round elapsed : Nat) (runs : List (String × Run)) (p : String × Run),
      p ∈ runs → p.2.status ≠ RunStatus.running →
      p ∈ pollLoop oracle dur interval budget fuel round elapsed runs := by
  intro fuel
  induction fuel with
  | zero => intro round elapsed runs p hp _; exact hp
  | succ n ih =>
    intro round elapsed runs p hp hterm
    simp only [pollLoop]
    split
    · exact hp
    · have hmem : p ∈ (pollRound runs (oracle round)).1 := by
        rw [pollRound_fst_eq]
        refine List.mem_map.mpr ⟨p, hp, ?_⟩
        show (p.1, (stepRun (oracle round) p.2).1) = p
        rw [stepRun_not_running _ _ hterm]
      split
      · exact hmem
      · split
        · exact ih _ _ _ p hmem hterm
        · exact hmem

theorem retryGo_attempts_le (ar : Nat → AttemptResult) (jit : Nat → Nat)
    (factor maxRetries : Nat) (title : String) :
    ∀ (fuel attempt delay : Nat) (sleeps : List Nat),
      (retryGo ar jit factor maxRetries title fuel attempt delay sleeps).attempts
        ≤ attempt + fuel := by
  intro fuel
  induction fuel with
  | zero => intro attempt delay sleeps; exact Nat.le_refl _
  | succ n ih =>
    intro attempt delay sleeps
    simp only [retryGo]
    cases ar attempt with
    | ok cid =>
      dsimp only
      show attempt + 1 ≤ attempt + (n + 1); omega
    | fail st detail =>
      dsimp only
      by_cases hlast : maxRetries ≤ attempt + 1
      · rw [if_pos hlast]
        show attempt + 1 ≤ attempt + (n + 1)
        omega
      · rw [if_neg hlast]
        by_cases hb : aggressiveBackoff st = true
        · rw [if_pos hb]
          have h := ih (attempt + 1) (delay * factor) (sleeps ++ [delay + jit attempt])
          omega
        · rw [if_neg hb]
          have h := ih (attempt + 1) delay (sleeps ++ [min delay 5000 + jit attempt])
          omega

theorem retryGo_allfail (ar : Nat → AttemptResult) (jit : Nat → Nat)
    (factor maxRetries : Nat) (title : String) :
    ∀ (fuel attempt delay : Nat) (sleeps : List Nat),
      fuel = maxRetries - attempt → attempt < maxRetries →
      (∀ i, attempt ≤ i → i < maxRetries → ∃ st d, ar i = AttemptResult.fail st d) →
      ∃ st d, ar (maxRetries - 1) = AttemptResult.fail st d ∧
        (retryGo ar jit factor maxRetries title fuel attempt delay sleeps).result
          = Except.error (exceededMsg maxRetries title d) ∧
        (retryGo ar jit factor maxRetries title fuel attempt delay sleeps).attempts
          = maxRetries := by
  intro fuel
  induction fuel with
  | zero =>
    intro attempt delay sleeps hfuel hlt _
    omega
  | succ n ih =>
    intro attempt delay sleeps hfuel hlt hfail
    obtain ⟨st, d, hard⟩ := hfail attempt (Nat.le_refl _) hlt
    simp only [retryGo, hard]
    by_cases hlast : maxRetries ≤ attempt + 1
    · have hattempt : attempt = maxRetries - 1 := by omega
      rw [if_pos hlast]
      exact ⟨st, d, hattempt ▸ hard, rfl, by show attempt + 1 = maxRetries; omega⟩
    · rw [if_neg hlast]
      by_cases hb : aggressiveBackoff st = true
      · rw [if_pos hb]
        exact ih (attempt + 1) (delay * factor) (sleeps ++ [delay + jit attempt])
          (by omega) (by omega) (fun i hi1 hi2 => hfail i (by omega) hi2)
      · rw [if_neg hb]
        exact ih (attempt + 1) delay (sleeps ++ [min delay 5000 + jit attempt])
          (by omega) (by omega) (fun i hi1 hi2 => hfail i (by omega) hi2)

theorem retryGo_sleeps_aggressive (ar : Nat → AttemptResult) (jit : Nat → Nat)
    (factor maxRetries base : Nat) (title : String)
    (hfail : ∀ i, i < maxRetries → ∃ st d, ar i = AttemptResult.fail st d)
    (hagg : ∀ i st d, ar i = AttemptResult.fail st d → aggressiveBackoff st = true) :
    ∀ (fuel attempt : Nat) (sleeps : List Nat),
      fuel = maxRetries - attempt → attempt < maxRetries →
      (retryGo ar jit factor maxRetries title fuel attempt (base * factor ^ attempt) sleeps).sleeps
        = sleeps ++ (List.range' attempt (maxRetries - 1 - attempt)).map
            (fun k => base * factor ^ k + jit k) := by
  intro fuel
  induction fuel with
  | zero => intro attempt sleeps hfuel hlt; omega
  | succ n ih =>
    intro attempt sleeps hfuel hlt
    obtain ⟨st, d, hard⟩ := hfail attempt hlt
    simp only [retryGo, hard]
    by_cases hlast : maxRetries ≤ attempt + 1
    · rw [if_pos hlast]
      have : maxRetries - 1 - attempt = 0 := by omega
      rw [this]
      simp
    · rw [if_neg hlast, if_pos (hagg attempt st d hard)]
      have hstep : base * factor ^ attempt * factor = base * factor ^ (attempt + 1) := by
        rw [pow_succ]; ring
      rw [hstep, ih (attempt + 1) _ (by omega) (by omega)]
      have hrange : maxRetries - 1 - attempt = (maxRetries - 1 - (attempt + 1)) + 1 := by omega
      rw [hrange, List.range'_succ, List.map_cons]
      simp

/-- Claim C4: once a Run is finished, aborted, or error, a poll step of
`GET /results/:batchId` leaves it entirely unchanged (status, resultObject
and error included) and does not mark the round as still running; a Run is
only ever mutated by a poll step while its status is running. -/
theorem C4_run_status_monotone (env : String → PollResult) (run : Run)
    (h : run.status = RunStatus.finished ∨ run.status = RunStatus.aborted ∨
         run.status = RunStatus.error) :
    stepRun env run = (run, false) ∧
    (∀ (env2 : String → PollResult) (r2 : Run),
        (stepRun env2 r2).1 ≠ r2 → r2.status = RunStatus.running) := by
  constructor
  · apply stepRun_not_running
    rcases h with h | h | h <;> rw [h] <;> intro hc <;> exact RunStatus.noConfusion hc
  · exact stepRun_changed_running

theorem C4_run_status_monotone_witness :
    (stepRun (fun _ => ⟨some (.str "finished"), some (.str "x"), .null⟩)
        ⟨"t", some "u", some "c", RunStatus.finished, none, none⟩
      = (⟨"t", some "u", some "c", RunStatus.finished, none, none⟩, false)) ∧
    (∀ (env2 : String → PollResult) (r2 : Run),
        (stepRun env2 r2).1 ≠ r2 → r2.status = RunStatus.running) :=
  C4_run_status_monotone (fun _ => ⟨some (.str "finished"), some (.str "x"), .null⟩)
    ⟨"t", some "u", some "c", RunStatus.finished, none, none⟩ (Or.inl rfl)

/-- The run and environment refuting claim C3 as stated: the agent reports
`finished` with a present but falsy payload (the empty string); the service
stores `null` in its place rather than the payload itself. -/
def c3run : Run := ⟨"t", some "u", some "c1", RunStatus.running, none, none⟩

def c3env : String → PollResult := fun _ => ⟨some (.str "finished"), some (.str ""), .null⟩

/-- Claim C3, counterexample: a poll step observing remote status
`finished` with returned payload `""` stores `null` (`none`), not the
payload — `run.resultObject = resultObject || null` collapses falsy
payloads, so the Run does not store exactly what the agent returned. -/
theorem C3_counterexample :
    (c3env "c1").resultObject = some (.str "") ∧
    c3run.status = RunStatus.running ∧
    (stepRun c3env c3run).1.status = RunStatus.finished ∧
    (stepRun c3env c3run).1.resultObject = none ∧
    (stepRun c3env c3run).1.resultObject ≠ (c3env "c1").resultObject := by
  refine ⟨rfl, rfl, rfl, rfl, ?_⟩
  rw [show (stepRun c3env c3run).1.resultObject = none from rfl,
      show (c3env "c1").resultObject = some (.str "") from rfl]
  simp

/-- Claim C3, amended: a poll step observing `finished` marks the Run
finished and stores the returned payload verbatim when it is truthy;
an absent payload stays absent (`null`), a falsy payload is collapsed to
`null`; and the stored payload is never anything the agent did not return
(no synthesis). -/
theorem C3_finished_payload_storage (env : String → PollResult) (run : Run) (cid : String)
    (hrun : run.status = RunStatus.running) (hcid : run.containerId = some cid)
    (hfin : isStatusStr (env cid) "finished" = true) :
    (stepRun env run).1.status = RunStatus.finished ∧
    (∀ v, truthy v = true → (env cid).resultObject = some v →
        (stepRun env run).1.resultObject = some v) ∧
    ((env cid).resultObject = none → (stepRun env run).1.resultObject = none) ∧
    (∀ v, (stepRun env run).1.resultObject = some v → (env cid).resultObject = some v) := by
  have hstep : (stepRun env run).1
      = { run with status := RunStatus.finished,
                   resultObject := storedResult (env cid).resultObject } := by
    rw [stepRun, if_pos hrun, hcid]
    show (applyPoll run (env cid)).1 = _
    rw [applyPoll, if_pos hfin]
    rw [hcid]
  rw [hstep]
  refine ⟨rfl, ?_, ?_, ?_⟩
  · intro v hv he
    show storedResult (env cid).resultObject = some v
    rw [he]
    simp [storedResult, hv]
  · intro he
    show storedResult (env cid).resultObject = none
    rw [he]
    rfl
  · intro v hv
    replace hv : storedResult (env cid).resultObject = some v := hv
    cases he : (env cid).resultObject with
    | none => rw [he] at hv; exact Option.noConfusion hv
    | some w =>
      rw [he] at hv
      rw [storedResult] at hv
      by_cases ht : truthy w = true
      · rw [if_pos ht] at hv
        exact hv ▸ rfl
      · rw [if_neg ht] at hv
        exact Option.noConfusion hv

theorem C3_finished_payload_storage_witness :
    ((stepRun (fun _ => ⟨some (.str "finished"), some (.str "payload"), .null⟩)
        ⟨"t", some "u", some "c1", RunStatus.running, none, none⟩).1.status
      = RunStatus.finished) ∧
    (∀ v, truthy v = true →
      ((fun _ => ⟨some (.str "finished"), some (.str "payload"), .null⟩ :
          String → PollResult) "c1").resultObject = some v →
      (stepRun (fun _ => ⟨some (.str "finished"), some (.str "payload"), .null⟩)
        ⟨"t", some "u", some "c1", RunStatus.running, none, none⟩).1.resultObject = some v) ∧
    (((fun _ => ⟨some (.str "finished"), some (.str "payload"), .null⟩ :
          String → PollResult) "c1").resultObject = none →
      (stepRun (fun _ => ⟨some (.str "finished"), some (.str "payload"), .null⟩)
        ⟨"t", some "u", some "c1", RunStatus.running, none, none⟩).1.resultObject = none) ∧
    (∀ v, (stepRun (fun _ => ⟨some (.str "finished"), some (.str "payload"), .null⟩)
        ⟨"t", some "u", some "c1", RunStatus.running, none, none⟩).1.resultObject = some v →
      ((fun _ => ⟨some (.str "finished"), some (.str "payload"), .null⟩ :
          String → PollResult) "c1").resultObject = some v) :=
  C3_finished_payload_storage
    (fun _ => ⟨some (.str "finished"), some (.str "payload"), .null⟩)
    ⟨"t", some "u", some "c1", RunStatus.running, none, none⟩ "c1" rfl rfl rfl

/-- Claim C5, counterexample: with items whose `profileUrl` is present but
empty, `dedupeByUrl` (first *truthy* field, `||`-chain) disagrees with the
claim's key (first *present* field): the claimed first-seen-wins result
under the first-present-field key drops the second item, the code keeps
both. -/
theorem C5_counterexample :
    dedupeByUrl [c5item1, c5item2] = [c5item1, c5item2] ∧
    firstOccurBy specKeyFirstPresent [c5item1, c5item2] = [c5item1] ∧
    dedupeByUrl [c5item1, c5item2] ≠ firstOccurBy specKeyFirstPresent [c5item1, c5item2] := by
  have h2 : firstOccurBy specKeyFirstPresent [c5item1, c5item2] = [c5item1] := by
    rw [firstOccurBy_cons,
        show List.filter
            (fun y => !jeq (specKeyFirstPresent c5item1) (specKeyFirstPresent y)) [c5item2]
          = [] from rfl,
        firstOccurBy_nil]
  refine ⟨rfl, h2, ?_⟩
  rw [show dedupeByUrl [c5item1, c5item2] = [c5item1, c5item2] from rfl, h2]
  simp

/-- Claim C5, amended: `dedupeByUrl` is order-preserving and
first-seen-wins for the key it actually computes — the first *truthy*
field among profileUrl, url, linkedinProfileUrl, publicProfileUrl, with
the full JSON serialization as fallback when none is truthy; its output is
a sublist of the input, and the spec's example deduplicates as stated. -/
theorem C5_dedupe_first_seen_wins (items : List Json) :
    dedupeByUrl items = firstOccurBy jsKey items ∧
    List.Sublist (dedupeByUrl items) items ∧
    dedupeByUrl
        [Json.obj [("url", .str "a")], Json.obj [("url", .str "b")],
         Json.obj [("url", .str "a")]]
      = [Json.obj [("url", .str "a")], Json.obj [("url", .str "b")]] := by
  refine ⟨dedupeByUrl_eq_firstOccurBy items, ?_, rfl⟩
  rw [dedupeByUrl_eq_firstOccurBy]
  exact firstOccurBy_sublist jsKey items

/-- Claim C9: a POST /search-profiles request with no company, or a company
blank after trimming, is answered 400 with an error body; the batch table
is untouched and no launch is attempted. -/
theorem C9_missing_company (table : List (String × Batch)) (batchId : String)
    (createdAt : Nat) (company? : Option String) (titles? : Option (List String))
    (launch : Nat → String → Except String String)
    (h : company? = none ∨ ∃ s, company? = some s ∧ jsTrim s = "") :
    postSearchProfiles table batchId createdAt company? titles? launch
      = { httpStatus := 400, table := table, launched := [],
          errorBody := some "Company is required.", response := none } := by
  have hc : jsTrim (company?.getD "") = "" := by
    rcases h with h | ⟨s, hs, he⟩
    · rw [h]; decide
    · rw [hs]
      exact he
  simp only [postSearchProfiles]
  rw [if_pos hc]

theorem C9_missing_company_witness :
    postSearchProfiles [] "b" 0 none none (fun _ _ => Except.ok "c")
      = { httpStatus := 400, table := [], launched := [],
          errorBody := some "Company is required.", response := none } :=
  C9_missing_company [] "b" 0 none none (fun _ _ => Except.ok "c") (Or.inl rfl)

theorem launchRuns_keys_fresh (c : String) (launch : Nat → String → Except String String) :
    ∀ (ts : List (Nat × String)) (runs : List (String × Run)),
      (ts.map Prod.snd).Nodup →
      (∀ q ∈ ts, assocHasKey runs q.2 = false) →
      (launchRuns c launch ts runs).map Prod.fst = runs.map Prod.fst ++ ts.map Prod.snd := by
  intro ts
  induction ts with
  | nil => intro runs _ _; simp [launchRuns]
  | cons p rest ih =>
    intro runs hnd hfresh
    obtain ⟨i, u⟩ := p
    rw [List.map_cons] at hnd
    rw [List.nodup_cons] at hnd
    have hu : assocHasKey runs u = false := hfresh (i, u) (List.mem_cons_self _ _)
    show (launchRuns c launch rest (assocSet runs u (launchedRun c launch i u))).map Prod.fst = _
    rw [ih (assocSet runs u (launchedRun c launch i u)) hnd.2 ?fresh]
    case fresh =>
      intro r hr
      rw [assocHasKey_assocSet]
      have h1 : assocHasKey runs r.2 = false := hfresh r (List.mem_cons_of_mem _ hr)
      have h2 : ¬ r.2 = u := by
        intro hc
        have hm : r.2 ∈ rest.map Prod.snd := List.mem_map_of_mem Prod.snd hr
        rw [hc] at hm
        exact hnd.1 hm
      simp [h1, h2]
    rw [assocSet_keys, if_neg (by simp [hu])]
    simp

theorem assocGet_isSome_of_mem {α : Type} (m : List (String × α)) (k : String)
    (h : k ∈ m.map Prod.fst) : ∃ v, assocGet m k = some v := by
  induction m with
  | nil => simp at h
  | cons q rest ih =>
    by_cases hq : q.1 = k
    · exact ⟨q.2, by show (if q.1 = k then some q.2 else assocGet rest k) = some q.2
                     rw [if_pos hq]⟩
    · have : k ∈ rest.map Prod.fst := by
        rcases List.mem_cons.mp h with he | hm
        · exact absurd he.symm hq
        · exact hm
      obtain ⟨v, hv⟩ := ih this
      exact ⟨v, by show (if q.1 = k then some q.2 else assocGet rest k) = some v
                   rw [if_neg hq]; exact hv⟩

/-- Claim C10: after a valid POST /search-profiles, every Run in the stored
batch is in one of exactly two shapes — running with a containerId and a
url and null resultObject/error, or error with null containerId/url/
resultObject and an error message — and the POST response's runs object is
the projection of those stored Runs. -/
theorem C10_post_run_shapes (table : List (String × Batch)) (batchId : String)
    (createdAt : Nat) (c : String) (titles? : Option (List String))
    (launch : Nat → String → Except String String)
    (hc : jsTrim c ≠ "") :
    ∃ b, assocGet (postSearchProfiles table batchId createdAt (some c) titles? launch).table
          batchId = some b ∧
      (∀ p ∈ b.runs,
        (p.2.status = RunStatus.running ∧ p.2.containerId.isSome = true ∧
         p.2.url.isSome = true ∧ p.2.resultObject = none ∧ p.2.error = none) ∨
        (p.2.status = RunStatus.error ∧ p.2.containerId = none ∧ p.2.url = none ∧
         p.2.resultObject = none ∧ p.2.error.isSome = true)) ∧
      (∃ resp, (postSearchProfiles table batchId createdAt (some c) titles? launch).response
          = some resp ∧ resp.runs = b.runs.map (fun p => (p.1, runView p.2))) := by
  simp only [postSearchProfiles, Option.getD]
  rw [if_neg hc]
  refine ⟨_, assocGet_assocSet _ _ _, ?_, ⟨_, rfl, rfl⟩⟩
  refine launchRuns_shape (jsTrim c) launch
      (fun r =>
        (r.status = RunStatus.running ∧ r.containerId.isSome = true ∧
         r.url.isSome = true ∧ r.resultObject = none ∧ r.error = none) ∨
        (r.status = RunStatus.error ∧ r.containerId = none ∧ r.url = none ∧
         r.resultObject = none ∧ r.error.isSome = true))
      (fun t cid => Or.inl ⟨rfl, rfl, rfl, rfl, rfl⟩)
      (fun t msg => Or.inr ⟨rfl, rfl, rfl, rfl, rfl⟩)
      _ [] (fun p hp => absurd hp (List.not_mem_nil p))

theorem C10_post_run_shapes_witness :
    ∃ b, assocGet (postSearchProfiles [] "b1" 0 (some "Acme") (some ["t1"])
          (fun _ _ => Except.ok "c7")).table "b1" = some b ∧
      (∀ p ∈ b.runs,
        (p.2.status = RunStatus.running ∧ p.2.containerId.isSome = true ∧
         p.2.url.isSome = true ∧ p.2.resultObject = none ∧ p.2.error = none) ∨
        (p.2.status = RunStatus.error ∧ p.2.containerId = none ∧ p.2.url = none ∧
         p.2.resultObject = none ∧ p.2.error.isSome = true)) ∧
      (∃ resp, (postSearchProfiles [] "b1" 0 (some "Acme") (some ["t1"])
          (fun _ _ => Except.ok "c7")).response
          = some resp ∧ resp.runs = b.runs.map (fun p => (p.1, runView p.2))) :=
  C10_post_run_shapes [] "b1" 0 "Acme" (some ["t1"]) (fun _ _ => Except.ok "c7")
    (by decide)

/-- The POST outcome refuting claim C2 as stated: duplicate requested
titles collapse onto one key of the runs object, so the batch holds fewer
Runs than requested titles. -/
def c2post : PostOutcome :=
  postSearchProfiles [] "b1" 0 (some "Acme") (some ["a", "a"]) (fun _ _ => Except.ok "cid")

/-- Claim C2, counterexample: with requested titles `["a", "a"]` the
created batch holds a single Run, not two — the runs object is keyed by
title, so a duplicate title overwrites the previous Run. -/
theorem C2_counterexample :
    (assocGet c2post.table "b1").map (fun b => b.runs.length) = some 1 ∧
    (["a", "a"] : List String).length = 2 ∧
    (assocGet c2post.table "b1").map (fun b => b.runs.length)
      ≠ some (["a", "a"] : List String).length := by
  refine ⟨rfl, rfl, ?_⟩
  rw [show (assocGet c2post.table "b1").map (fun b => b.runs.length) = some 1 from rfl]
  decide

/-- Claim C2, amended: for every valid POST /search-profiles the stored
batch's titles are the requested titles (or the default list), its runs
object carries pairwise-distinct keys, the set of those keys is exactly
the set of effective titles, and — when the requested titles are pairwise
distinct — the keys are exactly the titles in order and the number of Runs
equals the number of titles. -/
theorem C2_batch_run_creation (table : List (String × Batch)) (batchId : String)
    (createdAt : Nat) (c : String) (titles? : Option (List String))
    (launch : Nat → String → Except String String)
    (hc : jsTrim c ≠ "") :
    ∃ b, assocGet (postSearchProfiles table batchId createdAt (some c) titles? launch).table
          batchId = some b ∧
      b.titles = (if titles?.getD [] = [] then DEFAULT_TITLES else titles?.getD []) ∧
      (b.runs.map Prod.fst).Nodup ∧
      (∀ t, t ∈ b.runs.map Prod.fst ↔ t ∈ b.titles) ∧
      (b.titles.Nodup → b.runs.map Prod.fst = b.titles ∧ b.runs.length = b.titles.length) := by
  simp only [postSearchProfiles]
  rw [show jsTrim ((some c).getD "") = jsTrim c from rfl, if_neg hc]
  refine ⟨_, assocGet_assocSet _ _ _, rfl, ?_, ?_, ?_⟩
  · exact launchRuns_keys_nodup _ launch _ [] List.Pairwise.nil
  · intro t
    rw [launchRuns_mem_keys]
    show (t ∈ ([] : List (String × Run)).map Prod.fst ∨ _) ↔ _
    simp [List.enum_map_snd]
  · intro hnd
    have hkeys : (launchRuns (jsTrim c) launch
        (if (titles?.getD []) = [] then DEFAULT_TITLES else titles?.getD []).enum []).map
          Prod.fst
        = (if (titles?.getD []) = [] then DEFAULT_TITLES else titles?.getD []) := by
      rw [launchRuns_keys_fresh _ launch _ [] (by rw [List.enum_map_snd]; exact hnd)
            (fun q _ => rfl)]
      rw [List.enum_map_snd]
      rfl
    constructor
    · exact hkeys
    · calc (launchRuns (jsTrim c) launch _ []).length
          = ((launchRuns (jsTrim c) launch _ []).map Prod.fst).length :=
            (List.length_map _ _).symm
        _ = _ := by rw [hkeys]

theorem C2_batch_run_creation_witness :
    ∃ b, assocGet (postSearchProfiles [] "b2" 0 (some "Acme") (some ["x", "y"])
          (fun _ _ => Except.ok "cid")).table "b2" = some b ∧
      b.titles = (if (some ["x", "y"] : Option (List String)).getD [] = []
                  then DEFAULT_TITLES else (some ["x", "y"] : Option (List String)).getD []) ∧
      (b.runs.map Prod.fst).Nodup ∧
      (∀ t, t ∈ b.runs.map Prod.fst ↔ t ∈ b.titles) ∧
      (b.titles.Nodup → b.runs.map Prod.fst = b.titles ∧ b.runs.length = b.titles.length) :=
  C2_batch_run_creation [] "b2" 0 "Acme" (some ["x", "y"]) (fun _ _ => Except.ok "cid")
    (by decide)

theorem mem_enum_of_get (l : List String) (i : Nat) (hi : i < l.length) :
    (i, l.get ⟨i, hi⟩) ∈ l.enum := by
  rw [List.mem_enum_iff_get?]
  exact List.get?_eq_get hi

/-- Claim C7: a title whose launch fails on every attempt is tried exactly
`LAUNCH_MAX_RETRIES` times (and never more, whatever the outcomes); the
retry then surfaces an error carrying the last failure detail; when every
failure is classified aggressive (missing status, 5xx, 429, 408) the waits
follow exponential backoff — the `k`-th wait is `base * factor ^ k` plus
that wait's jitter draw; and a valid POST still records a run for every
title, storing `status: "error"` with the failure message for titles whose
launch returned an error, so the batch is not aborted. -/
theorem C7_launch_retry_behavior (ar : Nat → AttemptResult) (jit : Nat → Nat)
    (base factor maxRetries : Nat) (title : String)
    (hpos : 0 < maxRetries)
    (hfail : ∀ i, i < maxRetries → ∃ st d, ar i = AttemptResult.fail st d) :
    (∀ (ar2 : Nat → AttemptResult) (jit2 : Nat → Nat) (b2 f2 : Nat) (t2 : String),
        (launchRunForTitleWithRetry ar2 jit2 b2 f2 maxRetries t2).attempts ≤ maxRetries) ∧
    (launchRunForTitleWithRetry ar jit base factor maxRetries title).attempts = maxRetries ∧
    (∃ st d, ar (maxRetries - 1) = AttemptResult.fail st d ∧
      (launchRunForTitleWithRetry ar jit base factor maxRetries title).result
        = Except.error (exceededMsg maxRetries title d)) ∧
    ((∀ i st d, ar i = AttemptResult.fail st d → aggressiveBackoff st = true) →
      ∀ k, k < maxRetries - 1 →
        (launchRunForTitleWithRetry ar jit base factor maxRetries title).sleeps.get? k
          = some (base * factor ^ k + jit k)) ∧
    (∀ (table : List (String × Batch)) (batchId : String) (createdAt : Nat) (c : String)
        (titles : List String) (launch : Nat → String → Except String String),
        jsTrim c ≠ "" → titles ≠ [] → titles.Nodup →
        ∃ b, assocGet
              (postSearchProfiles table batchId createdAt (some c) (some titles) launch).table
              batchId = some b ∧
          (∀ t ∈ titles, ∃ r, assocGet b.runs t = some r) ∧
          (∀ (i : Nat) (hi : i < titles.length) (msg : String),
            launch i (titles.get ⟨i, hi⟩) = Except.error msg →
            assocGet b.runs (titles.get ⟨i, hi⟩)
              = some (mkRunErr (titles.get ⟨i, hi⟩) msg))) := by
  have hall := retryGo_allfail ar jit factor maxRetries title maxRetries 0 base []
    (by omega) hpos (fun i _ hi2 => hfail i hi2)
  obtain ⟨st, d, hard, hres, hatt⟩ := hall
  refine ⟨?attle, hatt, ⟨st, d, hard, hres⟩, ?sleeps, ?post⟩
  case attle =>
    intro ar2 jit2 b2 f2 t2
    have h := retryGo_attempts_le ar2 jit2 f2 maxRetries t2 maxRetries 0 b2 []
    simpa using h
  case sleeps =>
    intro hagg k hk
    have hs := retryGo_sleeps_aggressive ar jit factor maxRetries base title
      (fun i hi => hfail i hi) hagg maxRetries 0 [] (by omega) hpos
    rw [show base * factor ^ 0 = base by ring] at hs
    rw [launchRunForTitleWithRetry, hs]
    rw [List.nil_append, ← List.range_eq_range']
    rw [List.get?_map, List.get?_range (by omega)]
    rfl
  case post =>
    intro table batchId createdAt c titles launch hc hne hnd
    simp only [postSearchProfiles]
    rw [show jsTrim ((some c).getD "") = jsTrim c from rfl, if_neg hc]
    rw [show ((some titles).getD [] : List String) = titles from rfl]
    rw [if_neg hne]
    refine ⟨_, assocGet_assocSet _ _ _, ?_, ?_⟩
    · intro t ht
      apply assocGet_isSome_of_mem
      rw [launchRuns_mem_keys]
      right
      rw [List.enum_map_snd]
      exact ht
    · intro i hi msg hmsg
      have hmem : (i, titles.get ⟨i, hi⟩) ∈ titles.enum := mem_enum_of_get titles i hi
      have := launchRuns_get_fresh (jsTrim c) launch titles.enum []
        (by rw [List.enum_map_snd]; exact hnd) (fun q _ => rfl)
        (i, titles.get ⟨i, hi⟩) hmem
      rw [this]
      show some (launchedRun (jsTrim c) launch i (titles.get ⟨i, hi⟩)) = _
      rw [launchedRun, hmsg]

def c7ar : Nat → AttemptResult := fun _ => AttemptResult.fail (some 429) "boom"

def c7jit : Nat → Nat := fun _ => 7

theorem C7_launch_retry_behavior_witness :
    (∀ (ar2 : Nat → AttemptResult) (jit2 : Nat → Nat) (b2 f2 : Nat) (t2 : String),
        (launchRunForTitleWithRetry ar2 jit2 b2 f2 3 t2).attempts ≤ 3) ∧
    (launchRunForTitleWithRetry c7ar c7jit 8000 2 3 "t").attempts = 3 ∧
    (∃ st d, c7ar (3 - 1) = AttemptResult.fail st d ∧
      (launchRunForTitleWithRetry c7ar c7jit 8000 2 3 "t").result
        = Except.error (exceededMsg 3 "t" d)) ∧
    ((∀ i st d, c7ar i = AttemptResult.fail st d → aggressiveBackoff st = true) →
      ∀ k, k < 3 - 1 →
        (launchRunForTitleWithRetry c7ar c7jit 8000 2 3 "t").sleeps.get? k
          = some (8000 * 2 ^ k + c7jit k)) ∧
    (∀ (table : List (String × Batch)) (batchId : String) (createdAt : Nat) (c : String)
        (titles : List String) (launch : Nat → String → Except String String),
        jsTrim c ≠ "" → titles ≠ [] → titles.Nodup →
        ∃ b, assocGet
              (postSearchProfiles table batchId createdAt (some c) (some titles) launch).table
              batchId = some b ∧
          (∀ t ∈ titles, ∃ r, assocGet b.runs t = some r) ∧
          (∀ (i : Nat) (hi : i < titles.length) (msg : String),
            launch i (titles.get ⟨i, hi⟩) = Except.error msg →
            assocGet b.runs (titles.get ⟨i, hi⟩)
              = some (mkRunErr (titles.get ⟨i, hi⟩) msg))) :=
  C7_launch_retry_behavior c7ar c7jit 8000 2 3 "t" (by decide)
    (fun i _ => ⟨some 429, "boom", rfl⟩)

/-- Claim C8: the polling loop of `GET /results/:batchId` is bounded.  Once
the fuel (number of remaining rounds) covers the remaining wall-clock
budget — `budget ≤ elapsed + fuel * interval` — adding more fuel never
changes the outcome, i.e. the loop finishes within the budget-derived
number of rounds (each further round costs at least the `POLL_EVERY_MS`
sleep); when a round reports nothing still running the loop stops early
after that single round; and a run that is not `running` passes through
the whole loop untouched, so only still-running runs are ever stepped. -/
theorem C8_poll_loop_bounded (oracle : Nat → String → PollResult) (dur : Nat → Nat)
    (interval budget fuel round elapsed : Nat) (runs : List (String × Run))
    (hb : budget ≤ elapsed + fuel * interval) :
    (pollLoop oracle dur interval budget (fuel + 1) round elapsed runs
       = pollLoop oracle dur interval budget fuel round elapsed runs) ∧
    ((pollRound runs (oracle round)).2 = false → ¬ budget ≤ elapsed →
       pollLoop oracle dur interval budget (fuel + 1) round elapsed runs
         = (pollRound runs (oracle round)).1) ∧
    (∀ p ∈ runs, p.2.status ≠ RunStatus.running →
       ∀ (f r e : Nat), p ∈ pollLoop oracle dur interval budget f r e runs) := by
  refine ⟨pollLoop_fuel_stable oracle dur interval budget fuel round elapsed runs hb, ?_, ?_⟩
  · intro hquiet htime
    simp only [pollLoop]
    rw [if_neg htime, if_pos hquiet]
  · intro p hp hterm f r e
    exact pollLoop_preserves_terminal oracle dur interval budget f r e runs p hp hterm

def c8oracle : Nat → String → PollResult :=
  fun _ _ => ⟨some (.str "finished"), some (.arr []), .null⟩

def c8runs : List (String × Run) :=
  [("t", ⟨"t", some "u", some "c", RunStatus.running, none, none⟩)]

theorem C8_poll_loop_bounded_witness :
    (pollLoop c8oracle (fun _ => 0) 3000 6000 (2 + 1) 0 0 c8runs
       = pollLoop c8oracle (fun _ => 0) 3000 6000 2 0 0 c8runs) ∧
    ((pollRound c8runs (c8oracle 0)).2 = false → ¬ (6000:Nat) ≤ 0 →
       pollLoop c8oracle (fun _ => 0) 3000 6000 (2 + 1) 0 0 c8runs
         = (pollRound c8runs (c8oracle 0)).1) ∧
    (∀ p ∈ c8runs, p.2.status ≠ RunStatus.running →
       ∀ (f r e : Nat), p ∈ pollLoop c8oracle (fun _ => 0) 3000 6000 f r e c8runs) :=
  C8_poll_loop_bounded c8oracle (fun _ => 0) 3000 6000 2 0 0 c8runs (by decide)

theorem lookupField_setField (fields : List (String × Json)) (k : String) (v : Json) :
    lookupField (setField fields k v) k = some v := by
  induction fields with
  | nil =>
    show (if k = k then some v else none) = some v
    rw [if_pos rfl]
  | cons q rest ih =>
    obtain ⟨k2, v2⟩ := q
    by_cases h : k2 = k
    · show lookupField (if k2 = k then (k2, v) :: rest else (k2, v2) :: setField rest k v) k
        = some v
      rw [if_pos h]
      show (if k2 = k then some v else lookupField rest k) = some v
      rw [if_pos h]
    · show lookupField (if k2 = k then (k2, v) :: rest else (k2, v2) :: setField rest k v) k
        = some v
      rw [if_neg h]
      show (if k2 = k then some v2 else lookupField (setField rest k v) k) = some v
      rw [if_neg h]
      exact ih

theorem truncatePerTitle_arr_le (ro : Option Json) (max : Nat) :
    ∀ xs, truncatePerTitle ro max = some (.arr xs) → xs.length ≤ max := by
  intro xs h
  cases ro with
  | none => exact Option.noConfusion h
  | some j =>
    cases j with
    | arr ys =>
      simp only [truncatePerTitle] at h
      have he : ys.take max = xs := Json.arr.inj (Option.some.inj h)
      rw [← he, List.length_take]
      exact min_le_left _ _
    | obj fields =>
      simp only [truncatePerTitle] at h
      rw [if_pos (show truthy (Json.obj fields) = true from rfl)] at h
      cases hf : getField (.obj fields) "data" with
      | none =>
        rw [hf] at h
        exact Json.noConfusion (Option.some.inj h)
      | some d =>
        rw [hf] at h
        cases d <;> exact Json.noConfusion (Option.some.inj h)
    | null =>
      simp only [truncatePerTitle] at h
      rw [if_neg (by decide)] at h
      exact Json.noConfusion (Option.some.inj h)
    | bool b =>
      simp only [truncatePerTitle] at h
      cases b with
      | true =>
        rw [if_pos (show truthy (Json.bool true) = true from rfl)] at h
        exact Json.noConfusion (Option.some.inj h)
      | false =>
        rw [if_neg (by decide)] at h
        exact Json.noConfusion (Option.some.inj h)
    | num n =>
      simp only [truncatePerTitle] at h
      by_cases ht : truthy (Json.num n) = true
      · rw [if_pos ht] at h
        exact Json.noConfusion (Option.some.inj h)
      · rw [if_neg ht] at h
        exact Json.noConfusion (Option.some.inj h)
    | str s =>
      simp only [truncatePerTitle] at h
      by_cases ht : truthy (Json.str s) = true
      · rw [if_pos ht] at h
        exact Json.noConfusion (Option.some.inj h)
      · rw [if_neg ht] at h
        exact Json.noConfusion (Option.some.inj h)

theorem truncatePerTitle_data_le (ro : Option Json) (max : Nat) :
    ∀ j xs, truncatePerTitle ro max = some j → getField j "data" = some (.arr xs) →
      xs.length ≤ max := by
  intro j xs h hdata
  cases ro with
  | none => exact Option.noConfusion h
  | some j0 =>
    cases j0 with
    | arr ys =>
      simp only [truncatePerTitle] at h
      rw [← Option.some.inj h] at hdata
      exact Option.noConfusion hdata
    | obj fields =>
      simp only [truncatePerTitle] at h
      rw [if_pos (show truthy (Json.obj fields) = true from rfl)] at h
      cases hf : getField (.obj fields) "data" with
      | none =>
        rw [hf] at h
        rw [← Option.some.inj h] at hdata
        rw [show getField (.obj fields) "data" = none from hf] at hdata
        exact Option.noConfusion hdata
      | some d =>
        rw [hf] at h
        cases d with
        | arr ys =>
          rw [← Option.some.inj h] at hdata
          rw [show getField (objSetField (.obj fields) "data" (.arr (ys.take max))) "data"
                = some (.arr (ys.take max)) from lookupField_setField fields "data" _] at hdata
          have he : ys.take max = xs := Json.arr.inj (Option.some.inj hdata)
          rw [← he, List.length_take]
          exact min_le_left _ _
        | null =>
          rw [← Option.some.inj h] at hdata
          rw [hf] at hdata
          exact Json.noConfusion (Option.some.inj hdata)
        | bool b =>
          rw [← Option.some.inj h] at hdata
          rw [hf] at hdata
          exact Json.noConfusion (Option.some.inj hdata)
        | num n =>
          rw [← Option.some.inj h] at hdata
          rw [hf] at hdata
          exact Json.noConfusion (Option.some.inj hdata)
        | str s =>
          rw [← Option.some.inj h] at hdata
          rw [hf] at hdata
          exact Json.noConfusion (Option.some.inj hdata)
        | obj f2 =>
          rw [← Option.some.inj h] at hdata
          rw [hf] at hdata
          exact Json.noConfusion (Option.some.inj hdata)
    | null =>
      simp only [truncatePerTitle] at h
      rw [if_neg (by decide)] at h
      rw [← Option.some.inj h] at hdata
      exact Option.noConfusion hdata
    | bool b =>
      simp only [truncatePerTitle] at h
      cases b with
      | true =>
        rw [if_pos (show truthy (Json.bool true) = true from rfl)] at h
        rw [← Option.some.inj h] at hdata
        exact Option.noConfusion hdata
      | false =>
        rw [if_neg (by decide)] at h
        rw [← Option.some.inj h] at hdata
        exact Option.noConfusion hdata
    | num n =>
      simp only [truncatePerTitle] at h
      by_cases ht : truthy (Json.num n) = true
      · rw [if_pos ht] at h
        rw [← Option.some.inj h] at hdata
        exact Option.noConfusion hdata
      · rw [if_neg ht] at h
        rw [← Option.some.inj h] at hdata
        exact Option.noConfusion hdata
    | str s =>
      simp only [truncatePerTitle] at h
      by_cases ht : truthy (Json.str s) = true
      · rw [if_pos ht] at h
        rw [← Option.some.inj h] at hdata
        exact Option.noConfusion hdata
      · rw [if_neg ht] at h
        rw [← Option.some.inj h] at hdata
        exact Option.noConfusion hdata

/-- Claim C1, amended: for a batch whose every Run is finished with
pairwise-distinct identity keys across the normalized payloads,
`GET /results/:batchId` reports `allFinished: true` and `mergedCount`
equal to the *truncated* merged size: the minimum of the sum of the
normalized list lengths and `MAX_RESULTS_RETURNED`. -/
theorem C1_all_finished_merged_count (table : List (String × Batch)) (batchId : String)
    (batch : Batch) (oracle : Nat → String → PollResult) (dur : Nat → Nat)
    (interval budget maxResults fuel : Nat)
    (hget : assocGet table batchId = some batch)
    (hfin : ∀ p ∈ batch.runs, p.2.status = RunStatus.finished)
    (hkeys : (mergeFinished batch.runs).Pairwise
      (fun a b => jeq (jsKey a) (jsKey b) = false)) :
    ∃ resp, (getResults table batchId oracle dur interval budget maxResults fuel).2.2
        = some resp ∧
      resp.allFinished = true ∧
      resp.mergedCount
        = min ((batch.runs.map (fun p => (normalizeToArray p.2.resultObject).length)).sum)
            maxResults := by
  have hterm : ∀ p ∈ batch.runs, p.2.status ≠ RunStatus.running := by
    intro p hp hc
    rw [hfin p hp] at hc
    exact RunStatus.noConfusion hc
  have hloop : pollLoop oracle dur interval budget fuel 0 0 batch.runs = batch.runs :=
    pollLoop_all_terminal oracle dur interval budget fuel 0 0 batch.runs hterm
  simp only [getResults, hget]
  rw [hloop]
  refine ⟨_, rfl, ?_, ?_⟩
  · show batch.runs.all _ = true
    rw [List.all_eq_true]
    intro p hp
    rw [hfin p hp]
    rfl
  · show (List.take maxResults (dedupeByUrl (mergeFinished batch.runs))).length = _
    rw [dedupeByUrl_eq_firstOccurBy, firstOccurBy_pairwise_id jsKey _ hkeys,
        List.length_take, mergeFinished_eq_flatten _ hfin, List.length_flatten,
        List.map_map, Nat.min_comm]
    rfl

/-- Items with 51 pairwise-distinct URL keys, exceeding the configured
maximum of 50. -/
def bigItems : List Json :=
  (List.range 51).map (fun i => Json.obj [("url", Json.str (toString i))])

def c1batch : Batch :=
  ⟨"Acme", ["t"], 0,
   [("t", ⟨"t", some "u", some "c", RunStatus.finished, some (.arr bigItems), none⟩)]⟩

def c1resp : Option ResultsResponse :=
  (getResults [("b", c1batch)] "b" (fun _ _ => ⟨none, none, .null⟩) (fun _ => 0)
    3000 25000 50 9).2.2

/-- Claim C1, counterexample: a batch of one finished Run holding 51
distinct results reports `allFinished: true` but `mergedCount = 50`
(the truncated length), not the sum 51 of the normalized list lengths. -/
theorem C1_counterexample :
    (∀ p ∈ c1batch.runs, p.2.status = RunStatus.finished) ∧
    ((mergeFinished c1batch.runs).Pairwise (fun a b => jeq (jsKey a) (jsKey b) = false)) ∧
    c1resp.map ResultsResponse.allFinished = some true ∧
    c1resp.map ResultsResponse.mergedCount = some 50 ∧
    (c1batch.runs.map (fun p => (normalizeToArray p.2.resultObject).length)).sum = 51 ∧
    c1resp.map ResultsResponse.mergedCount
      ≠ some ((c1batch.runs.map (fun p => (normalizeToArray p.2.resultObject).length)).sum) := by
  refine ⟨by decide, by decide, rfl, rfl, rfl, ?_⟩
  rw [show c1resp.map ResultsResponse.mergedCount = some 50 from rfl,
      show (c1batch.runs.map (fun p => (normalizeToArray p.2.resultObject).length)).sum = 51
        from rfl]
  decide

def c1wbatch : Batch :=
  ⟨"Acme", ["t"], 0,
   [("t", ⟨"t", some "u", some "c", RunStatus.finished,
     some (.arr [Json.obj [("url", .str "a")], Json.obj [("url", .str "b")]]), none⟩)]⟩

theorem C1_all_finished_merged_count_witness :
    ∃ resp, (getResults [("b", c1wbatch)] "b" (fun _ _ => ⟨none, none, .null⟩) (fun _ => 0)
        3000 25000 50 9).2.2 = some resp ∧
      resp.allFinished = true ∧
      resp.mergedCount
        = min ((c1wbatch.runs.map (fun p => (normalizeToArray p.2.resultObject).length)).sum)
            50 :=
  C1_all_finished_merged_count [("b", c1wbatch)] "b" c1wbatch
    (fun _ _ => ⟨none, none, .null⟩) (fun _ => 0) 3000 25000 50 9
    rfl (by decide) (by decide)

/-- Claim C6, amended: in every `GET /results/:batchId` response the merged
list is the at-most-`maxResults`-long prefix of the deduplicated merge; a
per-title payload that is itself an array is truncated to `maxResults`, as
is an array under a payload's `data` field — but payloads carrying their
rows under `results` or `profiles` are returned untruncated (see the
counterexample), so not every per-title result list is bounded. -/
theorem C6_truncation (table : List (String × Batch)) (batchId : String) (batch : Batch)
    (oracle : Nat → String → PollResult) (dur : Nat → Nat)
    (interval budget maxResults fuel : Nat)
    (hget : assocGet table batchId = some batch) :
    ∃ resp, (getResults table batchId oracle dur interval budget maxResults fuel).2.2
        = some resp ∧
      resp.merged.length ≤ maxResults ∧
      (∃ rest, dedupeByUrl (mergeFinished
          (pollLoop oracle dur interval budget fuel 0 0 batch.runs))
        = resp.merged ++ rest) ∧
      (∀ t e, (t, e) ∈ resp.perTitle →
        (∀ xs, e.resultObject = some (.arr xs) → xs.length ≤ maxResults) ∧
        (∀ j xs, e.resultObject = some j → getField j "data" = some (.arr xs) →
          xs.length ≤ maxResults)) := by
  simp only [getResults, hget]
  refine ⟨_, rfl, ?_, ?_, ?_⟩
  · show (List.take maxResults _).length ≤ maxResults
    rw [List.length_take]
    exact min_le_left _ _
  · exact ⟨_, (List.take_append_drop maxResults _).symm⟩
  · intro t e he
    replace he : (t, e) ∈ (pollLoop oracle dur interval budget fuel 0 0 batch.runs).map
        (fun p => (p.1, perTitleEntry p.2 maxResults)) := he
    rw [List.mem_map] at he
    obtain ⟨p, _, hpe⟩ := he
    have he2 : e = perTitleEntry p.2 maxResults := (congrArg Prod.snd hpe).symm
    rw [he2]
    exact ⟨fun xs hxs => truncatePerTitle_arr_le p.2.resultObject maxResults xs hxs,
           fun j xs hj hdata =>
             truncatePerTitle_data_le p.2.resultObject maxResults j xs hj hdata⟩

def c6batch : Batch :=
  ⟨"Acme", ["t"], 0,
   [("t", ⟨"t", some "u", some "c", RunStatus.finished,
     some (.obj [("results", .arr bigItems)]), none⟩)]⟩

def c6resp : Option ResultsResponse :=
  (getResults [("b", c6batch)] "b" (fun _ _ => ⟨none, none, .null⟩) (fun _ => 0)
    3000 25000 50 9).2.2

/-- Claim C6, counterexample: a finished Run whose payload carries its 51
rows under `results` is returned in `perTitle` untruncated — its
normalized result list has 51 entries although `MAX_RESULTS_RETURNED` is
50; the per-title truncation only handles array payloads and `data`
fields. -/
theorem C6_counterexample :
    c6resp.map (fun r => r.perTitle.map (fun p => (normalizeToArray p.2.resultObject).length))
      = some [51] ∧
    c6resp.map (fun r => r.perTitle.map (fun p => p.2.resultObject))
      = some [some (.obj [("results", .arr bigItems)])] ∧
    ¬ (51 : Nat) ≤ 50 := by
  exact ⟨rfl, rfl, by decide⟩

theorem C6_truncation_witness :
    ∃ resp, (getResults [("b", c6batch)] "b" (fun _ _ => ⟨none, none, .null⟩) (fun _ => 0)
        3000 25000 50 9).2.2 = some resp ∧
      resp.merged.length ≤ 50 ∧
      (∃ rest, dedupeByUrl (mergeFinished
          (pollLoop (fun _ _ => ⟨none, none, .null⟩) (fun _ => 0) 3000 25000 9 0 0
            c6batch.runs))
        = resp.merged ++ rest) ∧
      (∀ t e, (t, e) ∈ resp.perTitle →
        (∀ xs, e.resultObject = some (.arr xs) → xs.length ≤ 50) ∧
        (∀ j xs, e.resultObject = some j → getField j "data" = some (.arr xs) →
          xs.length ≤ 50)) :=
  C6_truncation [("b", c6batch)] "b" c6batch (fun _ _ => ⟨none, none, .null⟩) (fun _ => 0)
    3000 25000 50 9 rfl
